import Mathlib

/-!
# Verification of the package build orchestrator

A shallow embedding of the build script (`scripts/prepare/bundle.ts` style
orchestrator): it reads a `package.json` with a `bundler` section, derives
entry/external lists, dispatches one bundler invocation per requested output
format (`esm` / `cjs`), and optionally writes per-entry declaration mapping
files.

Paths are modelled POSIX-style (`/`-separated); the working directory
(`process.cwd()`) is assumed absolute, matching Node's guarantee.
-/

namespace Bundle

/-! ## Character-level string utilities -/

/-- Split a character list on a separator character (semantics of splitting a
string on a one-character separator: `"a/b".split('/') = ["a","b"]`,
`"".split('/') = [""]`). -/
def splitOnSep (sep : Char) : List Char → List (List Char)
  | [] => [[]]
  | c :: cs =>
    match splitOnSep sep cs with
    | [] => [[]]
    | y :: ys => if c = sep then [] :: y :: ys else (c :: y) :: ys

/-- Interleave a separator character between chunks (inverse of `splitOnSep`). -/
def interChars (sep : Char) : List (List Char) → List Char
  | [] => []
  | [x] => x
  | x :: y :: ys => x ++ sep :: interChars sep (y :: ys)

/-- `String.prototype.includes`: does `s` contain `sub` as a contiguous
substring? -/
def listContainsSub (sub : List Char) : List Char → Bool
  | [] => sub.isEmpty
  | c :: cs => sub.isPrefixOf (c :: cs) || listContainsSub sub cs

/-- JS `s.includes(sub)`. -/
def jsIncludes (s sub : String) : Bool :=
  listContainsSub sub.toList s.toList

/-- Replace the first occurrence of `pat` by `rep` (JS
`String.prototype.replace` with a string pattern replaces only the first
occurrence). -/
def replaceFirstAux (pat rep : List Char) : List Char → List Char
  | [] => if pat.isPrefixOf ([] : List Char) then rep else []
  | c :: cs =>
    if pat.isPrefixOf (c :: cs) then rep ++ (c :: cs).drop pat.length
    else c :: replaceFirstAux pat rep cs

/-- JS `s.replace(pat, rep)` for a plain-string `pat`. -/
def jsReplaceFirst (s pat rep : String) : String :=
  String.mk (replaceFirstAux pat.toList rep.toList s.toList)

/-! ## POSIX path model -/

/-- The `/`-separated components of a path string. -/
def pathSegs (s : String) : List String :=
  (splitOnSep '/' s.toList).map String.mk

/-- Join path components with `/` (no normalisation). -/
def joinSegs : List String → String
  | [] => ""
  | [x] => x
  | x :: y :: ys => x ++ "/" ++ joinSegs (y :: ys)

/-- A component that survives path normalisation unchanged. -/
def isNormalSeg (s : String) : Prop := s ≠ "" ∧ s ≠ "." ∧ s ≠ ".."

instance (s : String) : Decidable (isNormalSeg s) := by
  unfold isNormalSeg; infer_instance

/-- One step of POSIX path normalisation. -/
def normStep (acc : List String) (seg : String) : List String :=
  if seg = "" || seg = "." then acc
  else if seg = ".." then acc.dropLast
  else acc ++ [seg]

/-- Normalise the components of an absolute path: drop empty and `.`
components, resolve `..` against the accumulated result (at the root, `..`
stays at the root, as in POSIX `path.normalize` on absolute paths). -/
def normSegs (l : List String) : List String := l.foldl normStep []

/-- Node `path.join(a, b)` for an absolute `a` (the orchestrator only ever
joins onto `process.cwd()`, which is absolute): concatenate and normalise. -/
def joinPath (a b : String) : String :=
  "/" ++ joinSegs (normSegs (pathSegs a ++ pathSegs b))

/-- The `slash` package: convert backslashes to forward slashes. -/
def slash (s : String) : String :=
  String.mk (s.toList.map (fun c => if c = '\\' then '/' else c))

/-- Node `path.parse(s).dir`: everything before the last separator. -/
def parseDir (s : String) : String :=
  joinSegs (pathSegs s).dropLast

/-- Node `path.parse(s).base`: the component after the last separator. -/
def parseBase (s : String) : String :=
  ((pathSegs s).getLast?).getD ""

/-- The `name` of a base component: the base without its extension. The
extension starts at the last `.`, except when that `.` is the first character
of the base (`.bashrc` has no extension). (Node additionally special-cases
all-dot bases such as `..`, which never arise as entry files.) -/
def nameOfBase (b : String) : String :=
  match splitOnSep '.' b.toList with
  | [] => b
  | [_] => b
  | p :: q :: rest =>
    if p.isEmpty && rest.isEmpty then b
    else String.mk (interChars '.' ((p :: q :: rest).dropLast))

/-- Node `path.parse(s).name`: base component without its extension. -/
def parseName (s : String) : String := nameOfBase (parseBase s)

/-- Length of the longest common prefix of two component lists. -/
def commonPrefixLen : List String → List String → Nat
  | a :: as, b :: bs => if a = b then commonPrefixLen as bs + 1 else 0
  | _, _ => 0

/-- Node `path.relative(fromDir, toDir)` on normalised absolute component
lists: climb out of the non-shared part of `fromDir`, then descend into the
non-shared part of `toDir`. -/
def relPath (fromSegs toSegs : List String) : String :=
  let k := commonPrefixLen fromSegs toSegs
  joinSegs (List.replicate (fromSegs.length - k) ".." ++ toSegs.drop k)

/-! ## Data model (package manifest and bundler section) -/

/-- Output formats. -/
inductive Format where
  | esm
  | cjs
deriving DecidableEq, Repr

/-- The `bundler` section of the package manifest. `none` models an absent
(JS `undefined`) field. -/
structure BundlerSection where
  entries : Option (List String) := none
  externals : Option (List String) := none
  noExternal : Option (List String) := none
  platform : Option String := none
  pre : Option String := none
  post : Option String := none
  formats : Option (List Format) := none
deriving DecidableEq, Repr

/-- The parts of `package.json` the orchestrator reads. Dependency records
are modelled as association lists (only the keys are ever used). -/
structure PackageJson where
  name : String
  dependencies : Option (List (String × String)) := none
  peerDependencies : Option (List (String × String)) := none
  bundler : BundlerSection
deriving DecidableEq, Repr

/-- JS truthiness of an optional string (`if (pre) ...`): absent and `""` are
falsy. -/
def jsTruthyStr : Option String → Bool
  | none => false
  | some s => !s.toList.isEmpty

/-- `hasFlag`: is some argument a `--name...` prefix match
(`s.startsWith("--" + name)`)? -/
def hasFlag (flags : List String) (name : String) : Bool :=
  flags.any (fun s => ("--" ++ name).toList.isPrefixOf s.toList)

/-! ## nodeInternals

The source builds the built-in module list with
`[...].reduce((acc, i) => { acc.concat([i, `node:${i}`]); return acc; }, [])`.
`Array.prototype.concat` returns a fresh array and does not mutate `acc`;
the reduce step discards that fresh array and returns `acc` unchanged. -/

/-- `Array.prototype.concat`: returns a new array, leaves both operands
unchanged. -/
def jsArrayConcat (a b : List String) : List String := a ++ b

/-- The base names fed into the reduce. -/
def nodeInternalsBase : List String :=
  ["assert", "buffer", "child_process", "cluster", "crypto", "dgram", "dns",
   "domain", "events", "fs", "http", "https", "net", "os", "path", "punycode",
   "querystring", "readline", "stream", "string_decoder", "tls", "tty", "url",
   "util", "v8", "vm", "zlib"]

/-- `nodeInternals` as the code computes it: each step calls
`acc.concat([i, "node:" ++ i])`, discards the result, and returns `acc`. -/
def nodeInternals : List String :=
  nodeInternalsBase.foldl
    (fun acc i =>
      let _ := jsArrayConcat acc [i, "node:" ++ i]
      acc)
    []

/-- The built-in module list as the spec describes it: each built-in both
bare and with the `node:` scheme. (Spec-side definition, for comparison with
`nodeInternals` above.) -/
def nodeInternalsSpec : List String :=
  nodeInternalsBase.foldl (fun acc i => acc ++ [i, "node:" ++ i]) []

/-! ## esbuild options and dts configuration -/

/-- The options `getESBuildOptions` assigns onto each task's esbuild
configuration. -/
structure ESBuildOptions where
  logLevel : String
  legalComments : String
  minifyWhitespace : Bool
  minifyIdentifiers : Bool
  minifySyntax : Bool
deriving DecidableEq, Repr

def getESBuildOptions (optimized : Bool) : ESBuildOptions :=
  { logLevel := "error"
    legalComments := "none"
    minifyWhitespace := optimized
    minifyIdentifiers := false
    minifySyntax := optimized }

/-- The `dts`/`tsconfig` section spread into at most one task. -/
structure DtsConfigSection where
  tsconfig : String
  dtsEntry : List String
  dtsResolve : Bool
deriving DecidableEq, Repr

structure DTSConfigsResult where
  dtsBuild : Option Format
  dtsConfig : DtsConfigSection
  tsConfigExists : Bool
deriving DecidableEq, Repr

/-- `getDTSConfigs`: declaration generation is attached to `formats[0]` only
when `optimized` is set, the format list is non-empty, and `tsconfig.json`
exists at the package root. (`fs.pathExists` is an input of the model.) -/
def getDTSConfigs (cwd : String) (formats : List Format) (entries : List String)
    (optimized : Bool) (tsConfigExists : Bool) : DTSConfigsResult :=
  let tsConfigPath := joinPath cwd "tsconfig.json"
  { dtsBuild :=
      if optimized && formats.head?.isSome && tsConfigExists then formats.head?
      else none
    dtsConfig :=
      { tsconfig := tsConfigPath, dtsEntry := entries, dtsResolve := true }
    tsConfigExists := tsConfigExists }

/-! ## noExternal patterns -/

/-- An element of the `noExternal` array: the hard-coded regular expression
`/^@vitest\/.+$/` or a literal module name from the manifest. -/
inductive NoExternalPattern where
  | vitestRegex
  | lit (s : String)
deriving DecidableEq, Repr

/-- Semantics of the regular expression `/^@vitest\/.+$/`: the whole string is
`@vitest/` followed by at least one character, none of which is a line
terminator. -/
def vitestRegexMatches (s : String) : Bool :=
  let l := s.toList
  "@vitest/".toList.isPrefixOf l
    && !(l.drop 8).isEmpty
    && (l.drop 8).all
        (fun c => c ≠ '\n' && c ≠ '\r' && c ≠ (Char.ofNat 0x2028) && c ≠ (Char.ofNat 0x2029))

/-! ## Declaration mapping files -/

/-- `generateDTSMapperFile`: from an entry path (as configured, e.g.
`./src/index.ts`) compute the mapping-file location under `dist/` and its
contents. `cwd` is `process.cwd()` as a normalised absolute component list;
the written path is returned the same way. -/
def generateDTSMapperFile (cwd : List String) (file : String) :
    List String × String :=
  let entryName := parseName file
  let dir := parseDir file
  let pathName :=
    normSegs (cwd ++ pathSegs (jsReplaceFirst dir "./src" "dist")
      ++ pathSegs (entryName ++ ".d.ts"))
  let srcName := normSegs (cwd ++ pathSegs file)
  let rel := relPath pathName.dropLast srcName.dropLast
  (pathName, "// dev-mode\nexport * from '" ++ rel ++ "/" ++ entryName ++ "';")

/-! ## The orchestrator -/

/-- One bundler invocation (`build({...})` call), with the fields the
orchestrator decides. -/
structure BuildTask where
  noExternal : List NoExternalPattern
  entry : List String
  format : Format
  external : List String
  dts : Option DtsConfigSection
  outDir : String
  watch : Bool
  target : List String
  options : ESBuildOptions
deriving DecidableEq, Repr

/-- Everything `run` decides: the dispatched tasks (in dispatch order), the
mapping files to write (path components and contents), whether the output
directory is cleared first, and whether the completion message is printed. -/
structure RunResult where
  tasks : List BuildTask
  mapperFiles : List (List String × String)
  resetOutDir : Bool
  doneMessagePrinted : Bool
deriving DecidableEq, Repr

/-- The orchestrator `run`, as a function of the manifest, the CLI flags, the
existence of `tsconfig.json`, and the `CI` environment variable. `cwd` is
`process.cwd()` (absolute). Hook execution and task completion are modelled
separately (see `RunTrace`). -/
def run (cwd : String) (pkg : PackageJson) (flags : List String)
    (tsConfigExists : Bool) (envCI : Option String) : RunResult :=
  let entries := pkg.bundler.entries.getD []
  let extraExternals := pkg.bundler.externals.getD []
  let extraNoExternal := pkg.bundler.noExternal.getD []
  let platform := pkg.bundler.platform
  let formats := pkg.bundler.formats.getD [.esm, .cjs]
  let reset := hasFlag flags "reset"
  let watch := hasFlag flags "watch"
  let optimized := hasFlag flags "optimized"
  let outDir := joinPath cwd "dist"
  let externals :=
    [pkg.name] ++ extraExternals
      ++ (pkg.dependencies.getD []).map Prod.fst
      ++ (pkg.peerDependencies.getD []).map Prod.fst
  let allEntries := entries.map (fun e => slash (joinPath cwd e))
  let dtsRes := getDTSConfigs cwd formats entries optimized tsConfigExists
  let nonPresetEntries :=
    allEntries.filter (fun f => !(jsIncludes (parseName f) "preset"))
  let noExternal :=
    NoExternalPattern.vitestRegex :: extraNoExternal.map NoExternalPattern.lit
  let esmTasks : List BuildTask :=
    if formats.contains Format.esm then
      [{ noExternal := noExternal
         entry := nonPresetEntries
         format := .esm
         external :=
           if platform == some "node" then externals ++ nodeInternals
           else externals
         dts := if dtsRes.dtsBuild == some .esm then some dtsRes.dtsConfig else none
         outDir := outDir
         watch := watch
         target := ["chrome100", "safari15", "firefox91"]
         options := getESBuildOptions optimized }]
    else []
  let cjsTasks : List BuildTask :=
    if formats.contains Format.cjs then
      [{ noExternal := noExternal
         entry := allEntries
         format := .cjs
         external := externals
         dts := if dtsRes.dtsBuild == some .cjs then some dtsRes.dtsConfig else none
         outDir := outDir
         watch := watch
         target := ["node18"]
         options := getESBuildOptions optimized }]
    else []
  let mapperFiles :=
    if dtsRes.tsConfigExists && !optimized then
      entries.map (generateDTSMapperFile (normSegs (pathSegs cwd)))
    else []
  { tasks := esmTasks ++ cjsTasks
    mapperFiles := mapperFiles
    resetOutDir := reset
    doneMessagePrinted := envCI != some "true" }

/-! ## Process-level error handling

The entry point is `run({cwd, flags}).catch(err => { if (err instanceof
Error) console.error(err.stack); process.exit(1); })`; a run that resolves
lets the process exit normally with code 0. -/

/-- A value rejected by the `run` promise: an `Error` object (carrying its
`stack` string) or any other thrown value. -/
inductive ThrownValue where
  | errorObj (stack : String)
  | nonError
deriving DecidableEq, Repr

/-- The process outcome: exit code and the lines written to the error
stream. `none` models a run that resolved. -/
def mainHandler : Option ThrownValue → Nat × List String
  | none => (0, [])
  | some (.errorObj stack) => (1, [stack])
  | some .nonError => (1, [])

/-! ## Spec-side definitions (for refinement comparisons) -/

/-- Modelled from the spec: "a continuous-integration indicator suppresses
the final completion message when set to a true-like value" — the strings
commonly accepted as true-like values of a CI indicator variable. -/
def ciTrueLike (s : String) : Bool :=
  s ∈ (["true", "True", "TRUE", "1", "yes", "on"] : List String)

/-! ## Async execution traces

The orchestrator body is single-threaded JS: it awaits the pre hook, then
synchronously pushes every task promise (the `build` calls and mapping-file
writes), then awaits `Promise.all(tasks)`, then awaits the post hook, then
prints the completion message. Task bodies therefore complete (in any order)
strictly between the last dispatch and the `Promise.all` resolution. -/

/-- Identity of an asynchronous task pushed onto `tasks`: a per-format
bundler invocation or the `i`-th mapping-file write. -/
inductive TaskId where
  | fmtTask (f : Format)
  | mapperTask (i : Nat)
deriving DecidableEq, Repr

/-- The tasks a run pushes, in push order. -/
def taskIds (r : RunResult) : List TaskId :=
  r.tasks.map (fun t => TaskId.fmtTask t.format)
    ++ (List.range r.mapperFiles.length).map TaskId.mapperTask

/-- Observable events of one orchestrator run. -/
inductive Ev where
  | preStart
  | preEnd
  | dispatch (t : TaskId)
  | complete (t : TaskId)
  | postStart
  | postEnd
  | doneMsg
deriving DecidableEq, Repr

/-- Events of the pre-hook phase (the hook runs only when configured and
truthy). -/
def preEvents (pre : Option String) : List Ev :=
  if jsTruthyStr pre then [Ev.preStart, Ev.preEnd] else []

/-- Events of the post-hook phase. -/
def postEvents (post : Option String) : List Ev :=
  if jsTruthyStr post then [Ev.postStart, Ev.postEnd] else []

/-- The completion-message event (suppressed when `CI` is exactly `"true"`). -/
def doneEvents (envCI : Option String) : List Ev :=
  if envCI != some "true" then [Ev.doneMsg] else []

/-- The valid event traces of one invocation, `true` for a run whose promise
resolves. A failing pre hook aborts before anything is dispatched; a failing
task leaves `Promise.all` rejected, so the post hook never starts; a failing
post hook ends the trace at `postStart`. Completions interleave in any
order (`perm`), but all fall between the synchronous dispatch block and
whatever follows the `Promise.all` await. -/
inductive RunTrace (cwd : String) (pkg : PackageJson) (flags : List String)
    (tsConfigExists : Bool) (envCI : Option String) : Bool → List Ev → Prop where
  | preFailed :
      jsTruthyStr pkg.bundler.pre = true →
      RunTrace cwd pkg flags tsConfigExists envCI false [Ev.preStart]
  | buildFailed (done : List TaskId) :
      done.Subperm (taskIds (run cwd pkg flags tsConfigExists envCI)) →
      RunTrace cwd pkg flags tsConfigExists envCI false
        (preEvents pkg.bundler.pre
          ++ (taskIds (run cwd pkg flags tsConfigExists envCI)).map Ev.dispatch
          ++ done.map Ev.complete)
  | postFailed (perm : List TaskId) :
      perm.Perm (taskIds (run cwd pkg flags tsConfigExists envCI)) →
      jsTruthyStr pkg.bundler.post = true →
      RunTrace cwd pkg flags tsConfigExists envCI false
        (preEvents pkg.bundler.pre
          ++ (taskIds (run cwd pkg flags tsConfigExists envCI)).map Ev.dispatch
          ++ perm.map Ev.complete ++ [Ev.postStart])
  | completed (perm : List TaskId) :
      perm.Perm (taskIds (run cwd pkg flags tsConfigExists envCI)) →
      RunTrace cwd pkg flags tsConfigExists envCI true
        (preEvents pkg.bundler.pre
          ++ (taskIds (run cwd pkg flags tsConfigExists envCI)).map Ev.dispatch
          ++ perm.map Ev.complete
          ++ postEvents pkg.bundler.post ++ doneEvents envCI)

/-! ## Concrete example manifests (used by witnesses and counterexamples) -/

/-- A representative node-platform manifest with one ordinary and one preset
entry, extra externals, runtime and peer dependencies, and both hooks. -/
def demoPkg : PackageJson :=
  { name := "@storybook/demo"
    dependencies := some [("dep-a", "1.0.0")]
    peerDependencies := some [("peer-a", "2.0.0")]
    bundler :=
      { entries := some ["./src/index.ts", "./src/presets/foo-preset.ts"]
        externals := some ["extra-a"]
        noExternal := some ["lodash"]
        platform := some "node"
        pre := some "scripts/pre.ts"
        post := some "scripts/post.ts"
        formats := some [Format.esm, Format.cjs] } }

/-- A manifest whose bundler section declares an explicitly empty format
list. -/
def emptyFormatsPkg : PackageJson :=
  { name := "fmt-empty"
    bundler := { entries := some ["./src/index.ts"], formats := some [] } }

/-- A minimal manifest whose bundler section omits the format list. -/
def noFormatsPkg : PackageJson :=
  { name := "fmt-absent"
    bundler := { entries := some ["./src/index.ts"] } }

/-! # Helper lemmas -/

theorem toList_eq_nil_iff (s : String) : s.toList = [] ↔ s = "" := by
  constructor
  · intro h
    cases s with
    | mk data =>
      have hd : data = [] := by simpa [String.toList] using h
      subst hd
      rfl
  · intro h
    subst h
    rfl

/-- Membership in the task list of a run: the task is the ESM invocation or
the CJS invocation, each guarded by its format being requested. -/
theorem mem_run_tasks {cwd : String} {pkg : PackageJson} {flags : List String}
    {ts : Bool} {ci : Option String} {t : BuildTask}
    (ht : t ∈ (run cwd pkg flags ts ci).tasks) :
    t.noExternal = NoExternalPattern.vitestRegex
        :: (pkg.bundler.noExternal.getD []).map NoExternalPattern.lit ∧
    t.options = getESBuildOptions (hasFlag flags "optimized") := by
  simp only [run] at ht
  rcases List.mem_append.1 ht with h | h <;>
    [skip; skip] <;> split at h <;> simp_all

theorem toList_append (s t : String) : (s ++ t).toList = s.toList ++ t.toList := rfl

theorem mk_toList (s : String) : String.mk s.toList = s := by
  cases s
  rfl

theorem splitOnSep_exists_cons (c : Char) (l : List Char) :
    ∃ y ys, splitOnSep c l = y :: ys := by
  induction l with
  | nil => exact ⟨[], [], rfl⟩
  | cons x xs ih =>
    obtain ⟨y, ys, h⟩ := ih
    by_cases hx : x = c
    · exact ⟨[], y :: ys, by simp [splitOnSep, h, hx]⟩
    · exact ⟨x :: y, ys, by simp [splitOnSep, h, hx]⟩

theorem splitOnSep_cons_sep (c : Char) (t : List Char) :
    splitOnSep c (c :: t) = [] :: splitOnSep c t := by
  obtain ⟨y, ys, h⟩ := splitOnSep_exists_cons c t
  simp [splitOnSep, h]

theorem splitOnSep_append_no_sep (c : Char) (x t : List Char) (hx : c ∉ x)
    {y : List Char} {ys : List (List Char)} (ht : splitOnSep c t = y :: ys) :
    splitOnSep c (x ++ t) = (x ++ y) :: ys := by
  induction x with
  | nil => simpa using ht
  | cons a as ih =>
    have ha : a ≠ c := fun h => hx (h ▸ List.mem_cons_self a as)
    have has : c ∉ as := fun h => hx (List.mem_cons_of_mem a h)
    have := ih has
    simp [splitOnSep, this, ha]

theorem splitOnSep_no_sep (c : Char) (l : List Char) (h : c ∉ l) :
    splitOnSep c l = [l] := by
  have := splitOnSep_append_no_sep c l [] h rfl
  simpa using this

theorem splitOnSep_interChars (c : Char) (P : List (List Char))
    (hP : ∀ p ∈ P, c ∉ p) (hne : P ≠ []) :
    splitOnSep c (interChars c P) = P := by
  induction P with
  | nil => exact absurd rfl hne
  | cons p Q ih =>
    cases Q with
    | nil =>
      simpa [interChars] using splitOnSep_no_sep c p (hP p (List.mem_cons_self p []))
    | cons q R =>
      have hpc : c ∉ p := hP p (List.mem_cons_self p (q :: R))
      have hrest : ∀ r ∈ q :: R, c ∉ r := fun r hr => hP r (List.mem_cons_of_mem p hr)
      have hQ : splitOnSep c (interChars c (q :: R)) = q :: R := ih hrest (by simp)
      have hsep : splitOnSep c (c :: interChars c (q :: R))
          = [] :: q :: R := by
        rw [splitOnSep_cons_sep, hQ]
      have := splitOnSep_append_no_sep c p (c :: interChars c (q :: R)) hpc hsep
      simpa [interChars] using this

theorem toList_joinSegs (L : List String) :
    (joinSegs L).toList = interChars '/' (L.map String.toList) := by
  induction L with
  | nil => rfl
  | cons x xs ih =>
    cases xs with
    | nil => rfl
    | cons y ys =>
      show (x ++ "/" ++ joinSegs (y :: ys)).toList = _
      rw [toList_append, toList_append, ih]
      simp [interChars, List.append_assoc]

theorem pathSegs_joinSegs (L : List String)
    (h : ∀ s ∈ L, ('/' : Char) ∉ s.toList) (hne : L ≠ []) :
    pathSegs (joinSegs L) = L := by
  unfold pathSegs
  rw [toList_joinSegs, splitOnSep_interChars '/' (L.map String.toList)
    (by
      intro p hp
      obtain ⟨s, hs, rfl⟩ := List.mem_map.1 hp
      exact h s hs)
    (by simpa using hne)]
  rw [List.map_map, show String.mk ∘ String.toList = id from funext mk_toList,
    List.map_id]

theorem foldl_normStep_normal (L : List String) (h : ∀ s ∈ L, isNormalSeg s) :
    ∀ acc, L.foldl normStep acc = acc ++ L := by
  induction L with
  | nil => intro acc; simp
  | cons s L ih =>
    intro acc
    obtain ⟨h1, h2, h3⟩ := h s (List.mem_cons_self s L)
    have hstep : normStep acc s = acc ++ [s] := by
      simp [normStep, h1, h2, h3]
    rw [List.foldl_cons, hstep, ih (fun x hx => h x (List.mem_cons_of_mem s hx))]
    simp

theorem normSegs_of_normal (L : List String) (h : ∀ s ∈ L, isNormalSeg s) :
    normSegs L = L := by
  simpa using foldl_normStep_normal L h []

theorem foldl_normStep_dotdot (b : List String) :
    ∀ a, List.foldl normStep (a ++ b) (List.replicate b.length "..") = a := by
  induction b using List.reverseRecOn with
  | nil => intro a; simp
  | append_singleton b x ih =>
    intro a
    have hlen : (b ++ [x]).length = b.length + 1 := by simp
    rw [hlen, List.replicate_succ, List.foldl_cons]
    have hstep : normStep (a ++ (b ++ [x])) ".." = a ++ b := by
      simp [normStep, ← List.append_assoc]
    rw [hstep]
    exact ih a

theorem commonPrefixLen_branch (c : List String) (x y : String)
    (xs ys : List String) (h : x ≠ y) :
    commonPrefixLen (c ++ x :: xs) (c ++ y :: ys) = c.length := by
  induction c with
  | nil => simp [commonPrefixLen, h]
  | cons a as ih => simp [commonPrefixLen, ih]

theorem joinSegs_concat (L : List String) (x : String) (h : L ≠ []) :
    joinSegs (L ++ [x]) = joinSegs L ++ "/" ++ x := by
  induction L with
  | nil => exact absurd rfl h
  | cons a as ih =>
    cases as with
    | nil => rfl
    | cons b bs =>
      show joinSegs (a :: (b :: bs ++ [x])) = _
      have : joinSegs (a :: (b :: bs ++ [x]))
          = a ++ "/" ++ joinSegs (b :: bs ++ [x]) := rfl
      rw [this, ih (by simp),
        show joinSegs (a :: b :: bs) = a ++ "/" ++ joinSegs (b :: bs) from rfl]
      simp [String.append_assoc]

theorem isNormalSeg_of_three_le (s : String) (h : 3 ≤ s.toList.length) :
    isNormalSeg s := by
  refine ⟨?_, ?_, ?_⟩ <;>
    · intro heq
      subst heq
      simp at h

theorem nameOfBase_of_ext (base tail : String)
    (hb0 : base.toList ≠ []) (hbdot : ('.' : Char) ∉ base.toList)
    (htdot : ('.' : Char) ∉ tail.toList) :
    nameOfBase (base ++ "." ++ tail) = base := by
  have hto : (base ++ "." ++ tail).toList
      = base.toList ++ '.' :: tail.toList := by
    rw [toList_append, toList_append]
    simp
  have htail : splitOnSep '.' ('.' :: tail.toList)
      = [] :: [tail.toList] := by
    rw [splitOnSep_cons_sep, splitOnSep_no_sep '.' tail.toList htdot]
  have hsplit : splitOnSep '.' (base.toList ++ '.' :: tail.toList)
      = [base.toList, tail.toList] := by
    have := splitOnSep_append_no_sep '.' base.toList ('.' :: tail.toList)
      hbdot htail
    simpa using this
  unfold nameOfBase
  rw [hto, hsplit]
  simp only [List.isEmpty_iff]
  rw [if_neg (by simpa [String.toList] using hb0)]
  show String.mk (interChars '.' [base.toList]) = base
  show String.mk base.toList = base
  exact mk_toList base

theorem joinSegs_cons_of_ne (x : String) (L : List String) (h : L ≠ []) :
    joinSegs (x :: L) = x ++ "/" ++ joinSegs L := by
  cases L with
  | nil => exact absurd rfl h
  | cons a as => rfl

theorem replaceFirstAux_of_isPrefix (pat rep s : List Char)
    (h : pat.isPrefixOf s = true) :
    replaceFirstAux pat rep s = rep ++ s.drop pat.length := by
  cases s with
  | nil =>
    cases pat with
    | nil => simp [replaceFirstAux]
    | cons p ps => simp [List.isPrefixOf] at h
  | cons c cs => simp [replaceFirstAux, h]

/-- Replacing the leading `./src` of a parsed entry directory by `dist`
mirrors the directory under the output root. -/
theorem replaced_dir_segs (subdirs : List String)
    (hsub : ∀ s ∈ subdirs, ('/' : Char) ∉ s.toList) :
    pathSegs (jsReplaceFirst (joinSegs ("." :: "src" :: subdirs)) "./src" "dist")
      = "dist" :: subdirs := by
  cases subdirs with
  | nil => decide
  | cons s ss =>
    have hdir : (joinSegs ("." :: "src" :: s :: ss)).toList
        = "./src".toList ++ '/' :: (joinSegs (s :: ss)).toList := by
      rw [joinSegs_cons_of_ne "." ("src" :: s :: ss) (by simp),
        joinSegs_cons_of_ne "src" (s :: ss) (by simp)]
      rw [toList_append, toList_append, toList_append, toList_append]
      have h1 : ".".toList = ['.'] := rfl
      have h2 : "/".toList = ['/'] := rfl
      have h3 : "src".toList = ['s', 'r', 'c'] := rfl
      have h4 : "./src".toList = ['.', '/', 's', 'r', 'c'] := rfl
      rw [h1, h2, h3, h4]
      simp
    have hpre : "./src".toList.isPrefixOf
        ((joinSegs ("." :: "src" :: s :: ss)).toList) = true := by
      rw [hdir, List.isPrefixOf_iff_prefix]
      exact List.prefix_append _ _
    have hlen : ("./src".toList).length = 5 := rfl
    have hrepl : jsReplaceFirst (joinSegs ("." :: "src" :: s :: ss)) "./src" "dist"
        = joinSegs ("dist" :: s :: ss) := by
      unfold jsReplaceFirst
      rw [replaceFirstAux_of_isPrefix _ _ _ hpre, hdir, hlen]
      have hdrop : ("./src".toList ++ '/' :: (joinSegs (s :: ss)).toList).drop 5
          = '/' :: (joinSegs (s :: ss)).toList := by
        have : ("./src".toList).length = 5 := rfl
        rw [← this]
        exact List.drop_left _ _
      rw [hdrop]
      have hjoin : (joinSegs ("dist" :: s :: ss)).toList
          = "dist".toList ++ '/' :: (joinSegs (s :: ss)).toList := by
        rw [joinSegs_cons_of_ne "dist" (s :: ss) (by simp)]
        rw [toList_append, toList_append]
        simp
      rw [← hjoin, mk_toList]
    rw [hrepl]
    exact pathSegs_joinSegs ("dist" :: s :: ss)
      (by
        intro x hx
        rcases List.mem_cons.1 hx with h | h
        · subst h; decide
        · exact hsub x h)
      (by simp)

/-- The declaration-mapping generator contract: for an entry
`./src/<subdirs>/<base>.<tail>`, the file is written at the mirrored
location `<cwd>/dist/<subdirs>/<base>.d.ts` and its contents are a single
re-export whose relative module reference resolves (against the file's
directory) to `<cwd>/src/<subdirs>/<base>`, the entry's source location
without its extension. -/
theorem generateDTSMapperFile_spec
    (cwd subdirs : List String) (base tail : String)
    (hc : ∀ s ∈ cwd, isNormalSeg s)
    (hsub : ∀ s ∈ subdirs, isNormalSeg s ∧ ('/' : Char) ∉ s.toList)
    (hb0 : base.toList ≠ []) (hbslash : ('/' : Char) ∉ base.toList)
    (hbdot : ('.' : Char) ∉ base.toList)
    (ht0 : tail.toList ≠ []) (htslash : ('/' : Char) ∉ tail.toList)
    (htdot : ('.' : Char) ∉ tail.toList) :
    (generateDTSMapperFile cwd
        ("./src/" ++ joinSegs (subdirs ++ [base ++ "." ++ tail]))).1
      = cwd ++ ["dist"] ++ subdirs ++ [base ++ ".d.ts"] ∧
    ∃ ref : String,
      (generateDTSMapperFile cwd
          ("./src/" ++ joinSegs (subdirs ++ [base ++ "." ++ tail]))).2
        = "// dev-mode\nexport * from '" ++ ref ++ "';" ∧
      normSegs ((cwd ++ ["dist"] ++ subdirs) ++ pathSegs ref)
        = cwd ++ ["src"] ++ subdirs ++ [base] := by
  have hsubN : ∀ s ∈ subdirs, isNormalSeg s := fun s hs => (hsub s hs).1
  have hsubS : ∀ s ∈ subdirs, ('/' : Char) ∉ s.toList := fun s hs => (hsub s hs).2
  have hbt_toList : (base ++ "." ++ tail).toList
      = base.toList ++ '.' :: tail.toList := by
    rw [toList_append, toList_append]
    simp
  have hbN : isNormalSeg base := by
    refine ⟨?_, ?_, ?_⟩ <;> intro h <;> subst h
    · exact hb0 rfl
    · exact hbdot (by decide)
    · exact hbdot (by decide)
  have hbtS : ('/' : Char) ∉ (base ++ "." ++ tail).toList := by
    rw [hbt_toList]
    intro h
    rcases List.mem_append.1 h with h | h
    · exact hbslash h
    · rcases List.mem_cons.1 h with h | h
      · cases h
      · exact htslash h
  have hbtN : isNormalSeg (base ++ "." ++ tail) := by
    apply isNormalSeg_of_three_le
    rw [hbt_toList]
    simp only [List.length_append, List.length_cons]
    have h1 : 1 ≤ base.toList.length := List.length_pos.2 hb0
    have h2 : 1 ≤ tail.toList.length := List.length_pos.2 ht0
    omega
  have hbdN : isNormalSeg (base ++ ".d.ts") := by
    apply isNormalSeg_of_three_le
    rw [toList_append]
    have : (".d.ts".toList).length = 5 := rfl
    simp only [List.length_append, this]
    omega
  have hbdS : ('/' : Char) ∉ (base ++ ".d.ts").toList := by
    rw [toList_append]
    intro h
    rcases List.mem_append.1 h with h | h
    · exact hbslash h
    · revert h
      decide
  -- the entry string as a component join
  have hentry : "./src/" ++ joinSegs (subdirs ++ [base ++ "." ++ tail])
      = joinSegs ("." :: "src" :: (subdirs ++ [base ++ "." ++ tail])) := by
    rw [joinSegs_cons_of_ne "." ("src" :: (subdirs ++ [base ++ "." ++ tail]))
        (by simp),
      joinSegs_cons_of_ne "src" (subdirs ++ [base ++ "." ++ tail]) (by simp)]
    apply String.ext
    show ("./src/" ++ joinSegs (subdirs ++ [base ++ "." ++ tail])).toList
      = ("." ++ "/" ++ ("src" ++ "/" ++ joinSegs (subdirs ++ [base ++ "." ++ tail]))).toList
    rw [toList_append, toList_append, toList_append, toList_append, toList_append]
    have h1 : ".".toList = ['.'] := rfl
    have h2 : "/".toList = ['/'] := rfl
    have h3 : "src".toList = ['s', 'r', 'c'] := rfl
    have h4 : "./src/".toList = ['.', '/', 's', 'r', 'c', '/'] := rfl
    rw [h1, h2, h3, h4]
    simp
  have hsegsWf : ∀ s ∈ ("." :: "src" :: (subdirs ++ [base ++ "." ++ tail])),
      ('/' : Char) ∉ s.toList := by
    intro s hs
    rcases List.mem_cons.1 hs with h | hs
    · subst h; decide
    rcases List.mem_cons.1 hs with h | hs
    · subst h; decide
    rcases List.mem_append.1 hs with h | h
    · exact hsubS s h
    · rcases List.mem_cons.1 h with h | h
      · subst h; exact hbtS
      · cases h
  have hpse : pathSegs ("./src/" ++ joinSegs (subdirs ++ [base ++ "." ++ tail]))
      = "." :: "src" :: (subdirs ++ [base ++ "." ++ tail]) := by
    rw [hentry]
    exact pathSegs_joinSegs _ hsegsWf (by simp)
  -- parse results
  have hreshape : "." :: "src" :: (subdirs ++ [base ++ "." ++ tail])
      = (("." :: "src" :: subdirs) ++ [base ++ "." ++ tail]) := by simp
  have hbase : parseBase ("./src/" ++ joinSegs (subdirs ++ [base ++ "." ++ tail]))
      = base ++ "." ++ tail := by
    unfold parseBase
    rw [hpse, hreshape, List.getLast?_concat]
    rfl
  have hname : parseName ("./src/" ++ joinSegs (subdirs ++ [base ++ "." ++ tail]))
      = base := by
    unfold parseName
    rw [hbase]
    exact nameOfBase_of_ext base tail hb0 hbdot htdot
  have hdir : parseDir ("./src/" ++ joinSegs (subdirs ++ [base ++ "." ++ tail]))
      = joinSegs ("." :: "src" :: subdirs) := by
    unfold parseDir
    rw [hpse, hreshape, List.dropLast_concat]
  -- the mirrored output path
  have hdistSegs : pathSegs (jsReplaceFirst
        (parseDir ("./src/" ++ joinSegs (subdirs ++ [base ++ "." ++ tail])))
        "./src" "dist")
      = "dist" :: subdirs := by
    rw [hdir]
    exact replaced_dir_segs subdirs hsubS
  have hdts : pathSegs (base ++ ".d.ts") = [base ++ ".d.ts"] := by
    unfold pathSegs
    rw [splitOnSep_no_sep '/' _ hbdS]
    simp only [List.map_cons, List.map_nil]
    rw [mk_toList]
  have hpathName : normSegs (cwd ++ pathSegs (jsReplaceFirst
        (parseDir ("./src/" ++ joinSegs (subdirs ++ [base ++ "." ++ tail])))
        "./src" "dist")
        ++ pathSegs (base ++ ".d.ts"))
      = cwd ++ ["dist"] ++ subdirs ++ [base ++ ".d.ts"] := by
    rw [hdistSegs, hdts]
    have hshape : cwd ++ ("dist" :: subdirs) ++ [base ++ ".d.ts"]
        = cwd ++ ["dist"] ++ subdirs ++ [base ++ ".d.ts"] := by simp
    rw [hshape]
    apply normSegs_of_normal
    intro s hs
    rcases List.mem_append.1 hs with hs | hs
    · rcases List.mem_append.1 hs with hs | hs
      · rcases List.mem_append.1 hs with hs | hs
        · exact hc s hs
        · rcases List.mem_cons.1 hs with h | h
          · subst h; decide
          · cases h
      · exact hsubN s hs
    · rcases List.mem_cons.1 hs with h | h
      · subst h; exact hbdN
      · cases h
  -- the source path
  have hsrcName : normSegs (cwd
        ++ pathSegs ("./src/" ++ joinSegs (subdirs ++ [base ++ "." ++ tail])))
      = cwd ++ ("src" :: (subdirs ++ [base ++ "." ++ tail])) := by
    rw [hpse]
    unfold normSegs
    rw [List.foldl_append]
    have hcwd : List.foldl normStep [] cwd = cwd := by
      simpa using foldl_normStep_normal cwd hc []
    rw [hcwd, List.foldl_cons]
    have hdot : normStep cwd "." = cwd := by simp [normStep]
    rw [hdot]
    apply foldl_normStep_normal
    intro s hs
    rcases List.mem_cons.1 hs with h | hs
    · subst h; decide
    rcases List.mem_append.1 hs with h | h
    · exact hsubN s h
    · rcases List.mem_cons.1 h with h | h
      · subst h; exact hbtN
      · cases h
  -- relative reference from the output directory back to the source directory
  have hdropPath : (cwd ++ ["dist"] ++ subdirs ++ [base ++ ".d.ts"]).dropLast
      = cwd ++ ["dist"] ++ subdirs := List.dropLast_concat
  have hdropSrc : (cwd ++ ("src" :: (subdirs ++ [base ++ "." ++ tail]))).dropLast
      = cwd ++ ["src"] ++ subdirs := by
    have : cwd ++ ("src" :: (subdirs ++ [base ++ "." ++ tail]))
        = (cwd ++ ["src"] ++ subdirs) ++ [base ++ "." ++ tail] := by simp
    rw [this, List.dropLast_concat]
  have hcommon : commonPrefixLen (cwd ++ ["dist"] ++ subdirs)
      (cwd ++ ["src"] ++ subdirs) = cwd.length := by
    have h1 : cwd ++ ["dist"] ++ subdirs = cwd ++ ("dist" :: subdirs) := by simp
    have h2 : cwd ++ ["src"] ++ subdirs = cwd ++ ("src" :: subdirs) := by simp
    rw [h1, h2]
    exact commonPrefixLen_branch cwd "dist" "src" subdirs subdirs (by decide)
  have hrelLen : (cwd ++ ["dist"] ++ subdirs).length - cwd.length
      = subdirs.length + 1 := by
    simp only [List.length_append, List.length_cons, List.length_nil]
    omega
  have hrelDrop : (cwd ++ ["src"] ++ subdirs).drop cwd.length
      = "src" :: subdirs := by
    have h2 : cwd ++ ["src"] ++ subdirs = cwd ++ ("src" :: subdirs) := by simp
    rw [h2]
    exact List.drop_left _ _
  have hrel : relPath (cwd ++ ["dist"] ++ subdirs) (cwd ++ ["src"] ++ subdirs)
      = joinSegs (List.replicate (subdirs.length + 1) ".." ++ ("src" :: subdirs)) := by
    simp only [relPath]
    rw [hcommon, hrelLen, hrelDrop]
  -- assemble
  simp only [generateDTSMapperFile]
  rw [hname, hpathName, hsrcName, hdropPath, hdropSrc, hrel]
  refine ⟨rfl, ?_⟩
  refine ⟨joinSegs (List.replicate (subdirs.length + 1) ".." ++ ("src" :: subdirs))
      ++ "/" ++ base, ?_, ?_⟩
  · simp [String.append_assoc]
  · have hrefJoin : joinSegs (List.replicate (subdirs.length + 1) ".."
          ++ ("src" :: subdirs)) ++ "/" ++ base
        = joinSegs ((List.replicate (subdirs.length + 1) ".."
          ++ ("src" :: subdirs)) ++ [base]) := by
      rw [joinSegs_concat _ base (by simp)]
    rw [hrefJoin]
    have hrefSegs : pathSegs (joinSegs ((List.replicate (subdirs.length + 1) ".."
          ++ ("src" :: subdirs)) ++ [base]))
        = (List.replicate (subdirs.length + 1) ".." ++ ("src" :: subdirs)) ++ [base] := by
      apply pathSegs_joinSegs
      · intro s hs
        rcases List.mem_append.1 hs with hs | hs
        · rcases List.mem_append.1 hs with hs | hs
          · rw [List.eq_of_mem_replicate hs]
            decide
          · rcases List.mem_cons.1 hs with h | h
            · subst h; decide
            · exact hsubS s h
        · rcases List.mem_cons.1 hs with h | h
          · subst h; exact hbslash
          · cases h
      · simp
    rw [hrefSegs]
    have hlist : (cwd ++ ["dist"] ++ subdirs)
          ++ ((List.replicate (subdirs.length + 1) ".." ++ ("src" :: subdirs))
            ++ [base])
        = ((cwd ++ ("dist" :: subdirs)) ++ List.replicate (subdirs.length + 1) "..")
          ++ ("src" :: (subdirs ++ [base])) := by
      simp
    rw [hlist]
    unfold normSegs
    rw [List.foldl_append, List.foldl_append]
    have hA : List.foldl normStep [] (cwd ++ ("dist" :: subdirs))
        = cwd ++ ("dist" :: subdirs) := by
      have : ∀ s ∈ cwd ++ ("dist" :: subdirs), isNormalSeg s := by
        intro s hs
        rcases List.mem_append.1 hs with hs | hs
        · exact hc s hs
        · rcases List.mem_cons.1 hs with h | h
          · subst h; decide
          · exact hsubN s h
      simpa using foldl_normStep_normal _ this []
    rw [hA]
    have hB : List.foldl normStep (cwd ++ ("dist" :: subdirs))
        (List.replicate (subdirs.length + 1) "..") = cwd := by
      have hlen : ("dist" :: subdirs).length = subdirs.length + 1 := by simp
      rw [← hlen]
      exact foldl_normStep_dotdot ("dist" :: subdirs) cwd
    rw [hB]
    have hC : List.foldl normStep cwd ("src" :: (subdirs ++ [base]))
        = cwd ++ ("src" :: (subdirs ++ [base])) := by
      apply foldl_normStep_normal
      intro s hs
      rcases List.mem_cons.1 hs with h | hs
      · subst h; decide
      rcases List.mem_append.1 hs with h | h
      · exact hsubN s h
      · rcases List.mem_cons.1 h with h | h
        · subst h; exact hbN
        · cases h
    rw [hC]
    simp

/-- The entry list of each dispatched task: the ESM invocation compiles the
non-preset entries, the CJS invocation all entries. -/
theorem run_tasks_entry {cwd : String} {pkg : PackageJson} {flags : List String}
    {ts : Bool} {ci : Option String} {t : BuildTask}
    (ht : t ∈ (run cwd pkg flags ts ci).tasks) :
    (t.format = Format.esm ∧
      t.entry = ((pkg.bundler.entries.getD []).map
          (fun e => slash (joinPath cwd e))).filter
        (fun f => !(jsIncludes (parseName f) "preset"))) ∨
    (t.format = Format.cjs ∧
      t.entry = (pkg.bundler.entries.getD []).map
        (fun e => slash (joinPath cwd e))) := by
  simp only [run] at ht
  rcases List.mem_append.1 ht with h | h <;> split at h <;> simp_all

/-! # Claim theorems -/

/-- C7: a run rejected with an `Error` exits with code 1 and prints that
error's description (its `stack`) to the error stream; a resolved run exits
with code 0 (and prints nothing). -/
theorem fatal_error_exit_code_and_description :
    (mainHandler none).1 = 0 ∧ (mainHandler none).2 = [] ∧
    ∀ (stack : String),
      (mainHandler (some (ThrownValue.errorObj stack))).1 = 1 ∧
      stack ∈ (mainHandler (some (ThrownValue.errorObj stack))).2 := by
  refine ⟨rfl, rfl, fun stack => ⟨rfl, ?_⟩⟩
  simp [mainHandler]

/-- C9 (amended): the completion message is suppressed exactly when the `CI`
environment variable is set to the exact string `"true"`. -/
theorem done_message_suppressed_iff_ci_true
    (cwd : String) (pkg : PackageJson) (flags : List String) (ts : Bool)
    (ci : Option String) :
    (run cwd pkg flags ts ci).doneMessagePrinted = false ↔ ci = some "true" := by
  simp [run]

/-- C9 counterexample: `CI = "1"` is a true-like value, yet the completion
message is still printed, so suppression does not happen exactly at
true-like values. -/
theorem done_message_printed_on_ci_one :
    ciTrueLike "1" = true ∧
    (run "/repo" noFormatsPkg [] true (some "1")).doneMessagePrinted = true := by
  constructor
  · rfl
  · rfl

/-- C10: the noExternal list of every dispatched compilation task starts with
the `/^@vitest\/.+$/` pattern, whatever the manifest's noExternal field
holds; and that pattern matches every module id of the form `@vitest/<rest>`
with a non-empty `<rest>` free of line terminators. -/
theorem noExternal_starts_with_vitest_pattern
    (cwd : String) (pkg : PackageJson) (flags : List String) (ts : Bool)
    (ci : Option String) (t : BuildTask)
    (ht : t ∈ (run cwd pkg flags ts ci).tasks) :
    t.noExternal.head? = some NoExternalPattern.vitestRegex ∧
    t.noExternal = NoExternalPattern.vitestRegex
        :: (pkg.bundler.noExternal.getD []).map NoExternalPattern.lit ∧
    ∀ (rest : String), rest ≠ "" →
      (∀ c ∈ rest.toList,
        c ≠ '\n' ∧ c ≠ '\r' ∧ c ≠ Char.ofNat 0x2028 ∧ c ≠ Char.ofNat 0x2029) →
      vitestRegexMatches ("@vitest/" ++ rest) = true := by
  obtain ⟨hne, -⟩ := mem_run_tasks ht
  refine ⟨by rw [hne]; rfl, hne, ?_⟩
  intro rest hrest hchars
  have hto : ("@vitest/" ++ rest).toList = "@vitest/".toList ++ rest.toList := rfl
  have hlen : ("@vitest/".toList).length = 8 := by decide
  unfold vitestRegexMatches
  rw [hto]
  simp only []
  show ("@vitest/".toList.isPrefixOf ("@vitest/".toList ++ rest.toList)
      && !(("@vitest/".toList ++ rest.toList).drop 8).isEmpty
      && (("@vitest/".toList ++ rest.toList).drop 8).all
          (fun c => decide (c ≠ '\n') && decide (c ≠ '\x0d')
            && decide (c ≠ Char.ofNat 8232) && decide (c ≠ Char.ofNat 8233))) = true
  have hdrop : ("@vitest/".toList ++ rest.toList).drop 8 = rest.toList := by
    rw [← hlen]
    exact List.drop_left _ _
  have hpre : "@vitest/".toList.isPrefixOf ("@vitest/".toList ++ rest.toList) = true := by
    rw [List.isPrefixOf_iff_prefix]
    exact List.prefix_append _ _
  rw [hdrop, hpre]
  have hnonempty : rest.toList ≠ [] := by
    intro h
    exact hrest ((toList_eq_nil_iff rest).1 h)
  simp only [Bool.true_and]
  rw [Bool.and_eq_true]
  constructor
  · simpa [List.isEmpty_iff] using hnonempty
  · rw [List.all_eq_true]
    intro c hc
    obtain ⟨h1, h2, h3, h4⟩ := hchars c hc
    simp [h1, h2, h3, h4]

/-- C10 witness. -/
theorem noExternal_starts_with_vitest_pattern_witness :
    ∃ t ∈ (run "/repo" demoPkg [] true none).tasks,
      t.noExternal.head? = some NoExternalPattern.vitestRegex ∧
      vitestRegexMatches "@vitest/utils" = true := by
  have hmem : ((run "/repo" demoPkg [] true none).tasks.head?).isSome = true := by decide
  obtain ⟨t, rest, hts⟩ :
      ∃ t rest, (run "/repo" demoPkg [] true none).tasks = t :: rest := by
    cases h : (run "/repo" demoPkg [] true none).tasks with
    | nil => rw [h] at hmem; simp at hmem
    | cons a l => exact ⟨a, l, rfl⟩
  refine ⟨t, by rw [hts]; exact List.mem_cons_self t rest, ?_, ?_⟩
  · exact (noExternal_starts_with_vitest_pattern "/repo" demoPkg [] true none t
      (by rw [hts]; exact List.mem_cons_self t rest)).1
  · exact (noExternal_starts_with_vitest_pattern "/repo" demoPkg [] true none t
      (by rw [hts]; exact List.mem_cons_self t rest)).2.2 "utils" (by decide) (by decide)

/-- C6 counterexample: with `--optimized`, the esbuild options of the
dispatched tasks enable whitespace minification as well as syntax
minification, contradicting "do not enable whitespace minification". -/
theorem optimized_enables_whitespace_minify :
    ∃ t ∈ (run "/repo" demoPkg ["--optimized"] false none).tasks,
      t.options.minifySyntax = true ∧ t.options.minifyWhitespace = true := by
  decide

/-- C6 (amended): when `optimized` is set, the esbuild options passed to
every compilation task enable both syntax and whitespace minification; when
it is not set, neither is enabled. Identifier minification is never
enabled. -/
theorem esbuild_minify_flags
    (cwd : String) (pkg : PackageJson) (flags : List String) (ts : Bool)
    (ci : Option String) (t : BuildTask)
    (ht : t ∈ (run cwd pkg flags ts ci).tasks) :
    t.options.minifySyntax = hasFlag flags "optimized" ∧
    t.options.minifyWhitespace = hasFlag flags "optimized" ∧
    t.options.minifyIdentifiers = false := by
  obtain ⟨-, hopt⟩ := mem_run_tasks ht
  rw [hopt]
  exact ⟨rfl, rfl, rfl⟩

/-- C6 witness. -/
theorem esbuild_minify_flags_witness :
    ∃ t ∈ (run "/repo" demoPkg ["--optimized"] false none).tasks,
      t.options.minifySyntax = hasFlag ["--optimized"] "optimized" ∧
      t.options.minifyWhitespace = hasFlag ["--optimized"] "optimized" ∧
      t.options.minifyIdentifiers = false := by
  have hmem : ((run "/repo" demoPkg ["--optimized"] false none).tasks.head?).isSome = true := by
    decide
  obtain ⟨t, rest, hts⟩ :
      ∃ t rest, (run "/repo" demoPkg ["--optimized"] false none).tasks = t :: rest := by
    cases h : (run "/repo" demoPkg ["--optimized"] false none).tasks with
    | nil => rw [h] at hmem; simp at hmem
    | cons a l => exact ⟨a, l, rfl⟩
  exact ⟨t, by rw [hts]; exact List.mem_cons_self t rest,
    esbuild_minify_flags "/repo" demoPkg ["--optimized"] false none t
      (by rw [hts]; exact List.mem_cons_self t rest)⟩

/-- C5 counterexample: a bundler section declaring an explicitly empty
format list dispatches no compilation task at all (the destructuring default
applies only to an absent field). -/
theorem empty_formats_dispatches_nothing :
    (run "/repo" emptyFormatsPkg [] true none).tasks = [] := by
  rfl

/-- C5 (amended): a manifest whose bundler section omits the format list
gets both formats: an ESM task then a CJS task are dispatched. A manifest
declaring an explicitly empty list dispatches neither. -/
theorem absent_formats_defaults_to_both
    (cwd : String) (pkg : PackageJson) (flags : List String) (ts : Bool)
    (ci : Option String) (h : pkg.bundler.formats = none) :
    ((run cwd pkg flags ts ci).tasks).map (fun t => t.format)
      = [Format.esm, Format.cjs] := by
  simp [run, h]

/-- C5 witness. -/
theorem absent_formats_defaults_to_both_witness :
    noFormatsPkg.bundler.formats = none ∧
    ((run "/repo" noFormatsPkg [] true none).tasks).map (fun t => t.format)
      = [Format.esm, Format.cjs] :=
  ⟨rfl, absent_formats_defaults_to_both "/repo" noFormatsPkg [] true none rfl⟩

/-- C2: the built-in module list the ESM pass is supposed to add for the
node platform evaluates to the empty list — the reduce discards the result
of `Array.prototype.concat` — so the ESM external list for a node-platform
manifest is exactly package name, extra externals, runtime-dependency names
and peer-dependency names, with no built-in (bare or `node:`-prefixed)
present, although the intended list (`nodeInternalsSpec`) contains them. -/
theorem node_externals_missing_builtins :
    nodeInternals = [] ∧
    "fs" ∈ nodeInternalsSpec ∧ "node:fs" ∈ nodeInternalsSpec ∧
    (∃ t ∈ (run "/repo" demoPkg [] false none).tasks,
      t.format = Format.esm ∧
      t.external = ["@storybook/demo", "extra-a", "dep-a", "peer-a"] ∧
      "fs" ∉ t.external ∧ "node:fs" ∉ t.external) := by
  decide

/-- C1: an entry whose file name (the `path.parse` name component of its
resolved path) contains the substring "preset" is excluded from the ESM
task's entry list but present in the CJS task's entry list; an entry without
that substring is present in the entry list of both tasks. -/
theorem preset_entries_cjs_only
    (cwd : String) (pkg : PackageJson) (flags : List String) (ts : Bool)
    (ci : Option String) (e : String) (he : e ∈ pkg.bundler.entries.getD []) :
    (jsIncludes (parseName (slash (joinPath cwd e))) "preset" = true →
      ∀ t ∈ (run cwd pkg flags ts ci).tasks,
        (t.format = Format.esm → slash (joinPath cwd e) ∉ t.entry) ∧
        (t.format = Format.cjs → slash (joinPath cwd e) ∈ t.entry)) ∧
    (jsIncludes (parseName (slash (joinPath cwd e))) "preset" = false →
      ∀ t ∈ (run cwd pkg flags ts ci).tasks, slash (joinPath cwd e) ∈ t.entry) := by
  have hall : slash (joinPath cwd e)
      ∈ (pkg.bundler.entries.getD []).map (fun x => slash (joinPath cwd x)) :=
    List.mem_map.2 ⟨e, he, rfl⟩
  constructor
  · intro hpre t ht
    rcases run_tasks_entry ht with ⟨hfmt, hent⟩ | ⟨hfmt, hent⟩
    · refine ⟨fun _ => ?_, fun hccc => by rw [hfmt] at hccc; cases hccc⟩
      intro hf
      rw [hent] at hf
      have := (List.mem_filter.1 hf).2
      rw [hpre] at this
      cases this
    · refine ⟨fun hccc => (by rw [hfmt] at hccc; cases hccc), fun _ => ?_⟩
      rw [hent]
      exact hall
  · intro hpre t ht
    rcases run_tasks_entry ht with ⟨hfmt, hent⟩ | ⟨hfmt, hent⟩
    · rw [hent]
      exact List.mem_filter.2 ⟨hall, by rw [hpre]; rfl⟩
    · rw [hent]
      exact hall

/-- C1 witness. -/
theorem preset_entries_cjs_only_witness :
    "./src/presets/foo-preset.ts" ∈ demoPkg.bundler.entries.getD [] ∧
    jsIncludes (parseName (slash (joinPath "/repo" "./src/presets/foo-preset.ts")))
      "preset" = true ∧
    ∀ t ∈ (run "/repo" demoPkg [] true none).tasks,
      (t.format = Format.esm →
        slash (joinPath "/repo" "./src/presets/foo-preset.ts") ∉ t.entry) ∧
      (t.format = Format.cjs →
        slash (joinPath "/repo" "./src/presets/foo-preset.ts") ∈ t.entry) := by
  refine ⟨by decide, by decide, ?_⟩
  exact (preset_entries_cjs_only "/repo" demoPkg [] true none
    "./src/presets/foo-preset.ts" (by decide)).1 (by decide)

/-- C3: with a non-empty format list, an existing type-configuration file
and the `optimized` flag set, no declaration mapping file is written and the
tasks carrying declaration generation are exactly one: the task of the first
requested format. -/
theorem optimized_dts_on_first_format
    (cwd : String) (pkg : PackageJson) (flags : List String) (ci : Option String)
    (hopt : hasFlag flags "optimized" = true)
    (hne : pkg.bundler.formats.getD [Format.esm, Format.cjs] ≠ []) :
    (run cwd pkg flags true ci).mapperFiles = [] ∧
    ∀ f, (pkg.bundler.formats.getD [Format.esm, Format.cjs]).head? = some f →
      ((run cwd pkg flags true ci).tasks.filter
          (fun t => t.dts.isSome)).map (fun t => t.format) = [f] := by
  constructor
  · simp [run, hopt]
  · intro f hf
    cases hfl : pkg.bundler.formats.getD [Format.esm, Format.cjs] with
    | nil => exact absurd hfl hne
    | cons f0 rest =>
      rw [hfl] at hf
      simp only [List.head?_cons, Option.some.injEq] at hf
      subst hf
      cases f0 <;> simp [run, getDTSConfigs, hopt, hfl]

/-- C3 witness. -/
theorem optimized_dts_on_first_format_witness :
    hasFlag ["--optimized"] "optimized" = true ∧
    demoPkg.bundler.formats.getD [Format.esm, Format.cjs] ≠ [] ∧
    (run "/repo" demoPkg ["--optimized"] true none).mapperFiles = [] ∧
    ((run "/repo" demoPkg ["--optimized"] true none).tasks.filter
        (fun t => t.dts.isSome)).map (fun t => t.format) = [Format.esm] := by
  refine ⟨by decide, by decide, ?_, ?_⟩
  · exact (optimized_dts_on_first_format "/repo" demoPkg ["--optimized"] none
      (by decide) (by decide)).1
  · exact (optimized_dts_on_first_format "/repo" demoPkg ["--optimized"] none
      (by decide) (by decide)).2 Format.esm (by decide)

/-- In a block-structured trace `X ++ Y`, an event absent from `X` sits at a
strictly larger index than every event absent from `Y`. -/
theorem getElem?_two_blocks {X Y : List Ev} {i j : Nat} {x y : Ev}
    (hx : x ∉ X) (hy : y ∉ Y)
    (hi : (X ++ Y)[i]? = some x) (hj : (X ++ Y)[j]? = some y) : j < i := by
  have hiX : ¬ i < X.length := by
    intro hlt
    rw [List.getElem?_append_left hlt] at hi
    exact hx (List.getElem?_mem hi)
  have hjX : j < X.length := by
    by_contra hge
    push_neg at hge
    rw [List.getElem?_append_right hge] at hj
    exact hy (List.getElem?_mem hj)
  omega

/-- `postStart` never occurs before the `Promise.all` await: not in the
pre-hook events, the dispatch block, or the completion block. -/
theorem postStart_not_in_core (pre : Option String) (ds cs : List TaskId) :
    Ev.postStart ∉ preEvents pre ++ ds.map Ev.dispatch ++ cs.map Ev.complete := by
  unfold preEvents
  split <;> simp

/-- Completion events never occur after the `Promise.all` await. -/
theorem complete_not_in_tail (post envCI : Option String) (t : TaskId) :
    Ev.complete t ∉ postEvents post ++ doneEvents envCI := by
  unfold postEvents doneEvents
  split <;> split <;> simp

/-- `preStart` occurs only in the pre-hook block. -/
theorem preStart_not_in_post (post : Option String) :
    Ev.preStart ∉ postEvents post := by
  unfold postEvents
  split <;> simp

/-- `preStart` does not occur in the completion-message block. -/
theorem preStart_not_in_done (envCI : Option String) :
    Ev.preStart ∉ doneEvents envCI := by
  unfold doneEvents
  split <;> simp

/-- C8: hooks are ordering barriers. In every valid trace: (1) when a pre
hook is configured, every dispatch is preceded by the pre-hook completion;
(2) the post-hook start strictly follows every task completion; (3) a run
whose pre hook starts but never completes dispatches nothing. -/
theorem hooks_are_ordering_barriers
    (cwd : String) (pkg : PackageJson) (flags : List String) (ts : Bool)
    (ci : Option String) (b : Bool) (tr : List Ev)
    (htr : RunTrace cwd pkg flags ts ci b tr) :
    (jsTruthyStr pkg.bundler.pre = true →
      ∀ (i : Nat) (t : TaskId), tr[i]? = some (Ev.dispatch t) →
        ∃ j, j < i ∧ tr[j]? = some Ev.preEnd) ∧
    (∀ (i : Nat), tr[i]? = some Ev.postStart →
      ∀ (j : Nat) (t : TaskId), tr[j]? = some (Ev.complete t) → j < i) ∧
    (Ev.preStart ∈ tr → Ev.preEnd ∉ tr → ∀ t, Ev.dispatch t ∉ tr) := by
  have hpreEv : jsTruthyStr pkg.bundler.pre = true →
      preEvents pkg.bundler.pre = [Ev.preStart, Ev.preEnd] := by
    intro h
    simp [preEvents, h]
  have hpreEvF : jsTruthyStr pkg.bundler.pre ≠ true →
      preEvents pkg.bundler.pre = [] := by
    intro h
    simp [preEvents, h]
  cases htr with
  | preFailed hpre =>
    refine ⟨?_, ?_, ?_⟩
    · intro _ i t hi
      have := List.getElem?_mem hi
      simp at this
    · intro i hi j t hj
      have := List.getElem?_mem hj
      simp at this
    · intro _ _ t
      simp
  | buildFailed done hsub =>
    refine ⟨?_, ?_, ?_⟩
    · intro hpre i t hi
      rw [hpreEv hpre] at hi ⊢
      rcases i with _ | _ | i
      · simp at hi
      · simp at hi
      · exact ⟨1, by omega, by simp⟩
    · intro i hi j t hj
      exact absurd (List.getElem?_mem hi) (postStart_not_in_core _ _ _)
    · intro hs hn t
      by_cases hp : jsTruthyStr pkg.bundler.pre = true
      · rw [hpreEv hp] at hn
        simp at hn
      · rw [hpreEvF hp] at hs
        simp at hs
  | postFailed perm hperm hpost =>
    refine ⟨?_, ?_, ?_⟩
    · intro hpre i t hi
      rw [hpreEv hpre] at hi ⊢
      rcases i with _ | _ | i
      · simp at hi
      · simp at hi
      · exact ⟨1, by omega, by simp⟩
    · intro i hi j t hj
      exact getElem?_two_blocks (postStart_not_in_core _ _ _) (by simp) hi hj
    · intro hs hn t
      by_cases hp : jsTruthyStr pkg.bundler.pre = true
      · rw [hpreEv hp] at hn
        simp at hn
      · rw [hpreEvF hp] at hs
        simp at hs
  | completed perm hperm =>
    refine ⟨?_, ?_, ?_⟩
    · intro hpre i t hi
      rw [hpreEv hpre] at hi ⊢
      rcases i with _ | _ | i
      · simp at hi
      · simp at hi
      · exact ⟨1, by omega, by simp⟩
    · intro i hi j t hj
      rw [List.append_assoc _ (postEvents pkg.bundler.post) (doneEvents ci)] at hi hj
      exact getElem?_two_blocks (postStart_not_in_core _ _ _)
        (complete_not_in_tail _ _ _) hi hj
    · intro hs hn t
      by_cases hp : jsTruthyStr pkg.bundler.pre = true
      · rw [hpreEv hp] at hn
        simp at hn
      · rw [hpreEvF hp] at hs
        simp only [List.nil_append] at hs
        exfalso
        rcases List.mem_append.1 hs with h | h
        · rcases List.mem_append.1 h with h2 | h2
          · rcases List.mem_append.1 h2 with h3 | h3 <;> simp at h3
          · exact preStart_not_in_post _ h2
        · exact preStart_not_in_done _ h

/-- C4: when `optimized` is not set and a type-configuration file exists at
the package root, exactly one declaration mapping file is produced per
configured entry (the write list is the entry list mapped through the
generator); and for every entry of the conventional shape
`./src/<subdirs>/<base>.<ext>`, its mapping file sits at the entry's
mirrored path under the output directory (`<cwd>/dist/<subdirs>/<base>.d.ts`)
and contains a single re-export statement whose relative module reference
resolves back to the entry's source location. -/
theorem mapper_files_written_per_entry
    (cwdStr : String) (cwd : List String) (pkg : PackageJson)
    (flags : List String) (ci : Option String)
    (hcwd : normSegs (pathSegs cwdStr) = cwd)
    (hc : ∀ s ∈ cwd, isNormalSeg s)
    (hopt : hasFlag flags "optimized" = false) :
    (run cwdStr pkg flags true ci).mapperFiles
      = (pkg.bundler.entries.getD []).map (generateDTSMapperFile cwd) ∧
    (run cwdStr pkg flags true ci).mapperFiles.length
      = (pkg.bundler.entries.getD []).length ∧
    ∀ (subdirs : List String) (base tail : String),
      (∀ s ∈ subdirs, isNormalSeg s ∧ ('/' : Char) ∉ s.toList) →
      base.toList ≠ [] → ('/' : Char) ∉ base.toList →
      ('.' : Char) ∉ base.toList →
      tail.toList ≠ [] → ('/' : Char) ∉ tail.toList →
      ('.' : Char) ∉ tail.toList →
      "./src/" ++ joinSegs (subdirs ++ [base ++ "." ++ tail])
          ∈ pkg.bundler.entries.getD [] →
      generateDTSMapperFile cwd
          ("./src/" ++ joinSegs (subdirs ++ [base ++ "." ++ tail]))
        ∈ (run cwdStr pkg flags true ci).mapperFiles ∧
      (generateDTSMapperFile cwd
          ("./src/" ++ joinSegs (subdirs ++ [base ++ "." ++ tail]))).1
        = cwd ++ ["dist"] ++ subdirs ++ [base ++ ".d.ts"] ∧
      ∃ ref : String,
        (generateDTSMapperFile cwd
            ("./src/" ++ joinSegs (subdirs ++ [base ++ "." ++ tail]))).2
          = "// dev-mode\nexport * from '" ++ ref ++ "';" ∧
        normSegs ((generateDTSMapperFile cwd
            ("./src/" ++ joinSegs (subdirs ++ [base ++ "." ++ tail]))).1.dropLast
            ++ pathSegs ref)
          = cwd ++ ["src"] ++ subdirs ++ [base] := by
  have hmf : (run cwdStr pkg flags true ci).mapperFiles
      = (pkg.bundler.entries.getD []).map (generateDTSMapperFile cwd) := by
    simp [run, getDTSConfigs, hopt, hcwd]
  refine ⟨hmf, by rw [hmf]; simp, ?_⟩
  intro subdirs base tail hsub hb0 hbslash hbdot ht0 htslash htdot hmem
  obtain ⟨hpath, ref, hcontent, hresolve⟩ :=
    generateDTSMapperFile_spec cwd subdirs base tail hc hsub hb0 hbslash hbdot
      ht0 htslash htdot
  refine ⟨by rw [hmf]; exact List.mem_map.2 ⟨_, hmem, rfl⟩, hpath, ref, hcontent, ?_⟩
  rw [hpath, List.dropLast_concat]
  exact hresolve

/-- C4 witness. -/
theorem mapper_files_written_per_entry_witness :
    (run "/repo" demoPkg [] true none).mapperFiles.length
      = (demoPkg.bundler.entries.getD []).length ∧
    generateDTSMapperFile ["repo"]
        ("./src/" ++ joinSegs (["presets"] ++ ["foo-preset" ++ "." ++ "ts"]))
      ∈ (run "/repo" demoPkg [] true none).mapperFiles ∧
    (generateDTSMapperFile ["repo"]
        ("./src/" ++ joinSegs (["presets"] ++ ["foo-preset" ++ "." ++ "ts"]))).1
      = ["repo"] ++ ["dist"] ++ ["presets"] ++ ["foo-preset" ++ ".d.ts"] ∧
    ∃ ref : String,
      (generateDTSMapperFile ["repo"]
          ("./src/" ++ joinSegs (["presets"] ++ ["foo-preset" ++ "." ++ "ts"]))).2
        = "// dev-mode\nexport * from '" ++ ref ++ "';" ∧
      normSegs ((generateDTSMapperFile ["repo"]
          ("./src/" ++ joinSegs (["presets"] ++ ["foo-preset" ++ "." ++ "ts"]))).1.dropLast
          ++ pathSegs ref)
        = ["repo"] ++ ["src"] ++ ["presets"] ++ ["foo-preset"] := by
  have h := mapper_files_written_per_entry "/repo" ["repo"] demoPkg [] none
    (by decide) (by decide) (by decide)
  have h3 := h.2.2 ["presets"] "foo-preset" "ts"
    (by decide) (by decide) (by decide) (by decide) (by decide) (by decide)
    (by decide) (by decide)
  exact ⟨h.2.1, h3.1, h3.2.1, h3.2.2⟩

/-- C8 witness. -/
theorem hooks_are_ordering_barriers_witness :
    jsTruthyStr demoPkg.bundler.pre = true ∧
    (∃ j, j < 2 ∧
      (preEvents demoPkg.bundler.pre
        ++ (taskIds (run "/repo" demoPkg [] false none)).map Ev.dispatch
        ++ (taskIds (run "/repo" demoPkg [] false none)).map Ev.complete
        ++ postEvents demoPkg.bundler.post
        ++ doneEvents none)[j]? = some Ev.preEnd) := by
  have htr : RunTrace "/repo" demoPkg [] false none true
      (preEvents demoPkg.bundler.pre
        ++ (taskIds (run "/repo" demoPkg [] false none)).map Ev.dispatch
        ++ (taskIds (run "/repo" demoPkg [] false none)).map Ev.complete
        ++ postEvents demoPkg.bundler.post ++ doneEvents none) :=
    RunTrace.completed _ (List.Perm.refl _)
  refine ⟨by decide, ?_⟩
  exact (hooks_are_ordering_barriers "/repo" demoPkg [] false none true _ htr).1
    (by decide) 2 (TaskId.fmtTask Format.esm) (by decide)

end Bundle
